import Mathlib

/-!
Verification of the PyXSec unfolding core against its specification.

The Python source operates on ROOT histograms (`TH1D`, `TH2D`).  We embed a
histogram as a record of total functions from (1-based) bin indices to
rational bin data.  Machine floats are modelled exactly by `ℚ`; the single
irrational operation of the code path (a Gaussian toy draw whose width is
`GetBinError = sqrt(fSumw2)`, and the correlation denominator
`sqrt(den1 * den2)`) is modelled over `ℝ`.

Squared errors: ROOT stores the per-bin error squared (the `fSumw2` array);
`SetBinError e` stores `e^2` and `GetBinError` returns the square root.  We
therefore keep the field `err2` (the stored square), under which every ROOT
error update of the code path (`Divide`, `Scale`, `Add`, bin-width division,
the transpose copy loop) is exact rational arithmetic.
-/

/-- Model of a ROOT `TH1D`: visible bins `1 .. nbins`, per-bin content,
squared error (`fSumw2`) and bin width. -/
structure TH1 where
  nbins : ℕ
  content : ℕ → ℚ
  err2 : ℕ → ℚ
  width : ℕ → ℚ

/-- Model of a ROOT `TH2D` with entries in `α` (the code stores `Float`
contents; correlation matrices are filled with real values in the model).
Visible cells `(1,1) .. (nx,ny)`, plus the two axis titles, which
`transpose_matrix` manipulates. -/
structure TH2 (α : Type) where
  nx : ℕ
  ny : ℕ
  content : ℕ → ℕ → α
  err2 : ℕ → ℕ → α
  widthX : ℕ → ℚ
  widthY : ℕ → ℚ
  titleX : String
  titleY : String

namespace TH1

/-- ROOT `TH1::Divide(h)`: per-bin ratio; a zero denominator bin gets content
and error silently set to `0` (ROOT convention, no exception and no NaN).
Error update is ROOT's `fSumw2` formula
`(e0^2 c1^2 + e1^2 c0^2) / c1^4`, exact on stored squares. -/
def divide (a b : TH1) : TH1 :=
  { a with
    content := fun i => if b.content i = 0 then 0 else a.content i / b.content i
    err2 := fun i => if b.content i = 0 then 0 else
      (a.err2 i * (b.content i) ^ 2 + b.err2 i * (a.content i) ^ 2) / (b.content i) ^ 4 }

/-- ROOT `TH1::Scale(c)`: contents scaled by `c`, stored squared errors by `c^2`. -/
def scale (c : ℚ) (a : TH1) : TH1 :=
  { a with
    content := fun i => c * a.content i
    err2 := fun i => c ^ 2 * a.err2 i }

/-- ROOT `TH1::Add(h, c)`: contents plus `c` times the other contents, stored
squared errors plus `c^2` times the other stored squares. -/
def addScaled (a b : TH1) (c : ℚ) : TH1 :=
  { a with
    content := fun i => a.content i + c * b.content i
    err2 := fun i => a.err2 i + c ^ 2 * b.err2 i }

/-- ROOT `TH1::Integral()`: sum of the visible bin contents `1 .. nbins`. -/
def integral (a : TH1) : ℚ :=
  ∑ i in Finset.range a.nbins, a.content (i + 1)

/-- ROOT `TH1::SetBinContent(i, v)`: bounds-checked write of a visible bin. -/
def setBC (a : TH1) (i : ℕ) (v : ℚ) : TH1 :=
  if 1 ≤ i ∧ i ≤ a.nbins then
    { a with content := fun x => if x = i then v else a.content x }
  else a

/-- ROOT `TH1::Reset()`: contents and stored squared errors zeroed
(binning and titles kept). -/
def reset (a : TH1) : TH1 :=
  { a with content := fun _ => 0, err2 := fun _ => 0 }

end TH1

namespace TH2

/-- ROOT `TH2::SetBinContent(x, y, v)`: bounds-checked write of one visible
cell's content. -/
def setBC {α : Type} (h : TH2 α) (x y : ℕ) (v : α) : TH2 α :=
  if 1 ≤ x ∧ x ≤ h.nx ∧ 1 ≤ y ∧ y ≤ h.ny then
    { h with content := fun a b => if a = x ∧ b = y then v else h.content a b }
  else h

/-- One iteration of the copy loop of `transpose_matrix`: the source does
`SetBinContent(x, y, c)` followed by `SetBinError(x, y, e)` on the same cell;
`SetBinError` stores the square, so on the stored-squares representation the
pair of calls writes `(c, e2)` where `e2` is the squared error being copied. -/
def setCell {α : Type} (h : TH2 α) (x y : ℕ) (c e2 : α) : TH2 α :=
  if 1 ≤ x ∧ x ≤ h.nx ∧ 1 ≤ y ∧ y ≤ h.ny then
    { h with
      content := fun a b => if a = x ∧ b = y then c else h.content a b
      err2 := fun a b => if a = x ∧ b = y then e2 else h.err2 a b }
  else h

/-- ROOT `TH2::ProjectionY(name, firstxbin, lastxbin)`: 1D histogram on the
y axis whose bin `j` sums the contents of x bins `firstxbin .. lastxbin`;
stored squared errors add. -/
def projectionY (h : TH2 ℚ) (lo hi : ℕ) : TH1 :=
  { nbins := h.ny
    content := fun j => ∑ i in Finset.range (hi + 1 - lo), h.content (lo + i) j
    err2 := fun j => ∑ i in Finset.range (hi + 1 - lo), h.err2 (lo + i) j
    width := h.widthY }

/-- ROOT `TH2::Reset()` on a rational histogram. -/
def resetQ (h : TH2 ℚ) : TH2 ℚ :=
  { h with content := fun _ _ => 0, err2 := fun _ _ => 0 }

/-- A reset clone of a rational `TH2`, re-typed to hold real entries (used as
the base of the correlation matrices, which are filled with real values). -/
def resetR (h : TH2 ℚ) : TH2 ℝ :=
  { nx := h.nx, ny := h.ny
    content := fun _ _ => 0, err2 := fun _ _ => 0
    widthX := h.widthX, widthY := h.widthY
    titleX := h.titleX, titleY := h.titleY }

end TH2

/-! ## `utils/Statistics.py`: `transpose_matrix` -/

/-- Index pairs `(i, j)`, `1 ≤ i ≤ nx`, `1 ≤ j ≤ ny`, in the order the two
nested `for` loops of `transpose_matrix` visit them. -/
def transposeIdx (nx ny : ℕ) : List (ℕ × ℕ) :=
  (List.range' 1 nx).flatMap fun i => (List.range' 1 ny).map fun j => (i, j)

/-- One iteration of the copy loop of `transpose_matrix`: for `p = (i, j)` it
writes `hTemp.SetBinContent(j, i, h2.GetBinContent(i, j))` and the matching
error copy into the accumulator. -/
def tstep (src acc : TH2 ℚ) (p : ℕ × ℕ) : TH2 ℚ :=
  acc.setCell p.2 p.1 (src.content p.1 p.2) (src.err2 p.1 p.2)

/-- The copy loop of `transpose_matrix`.  All reads are from `src` (the
Python loop reads `h2` and writes only the clone `hTemp`), so the loop is a
fold of single-cell writes. -/
def transposeLoop (src tmp : TH2 ℚ) : TH2 ℚ :=
  (transposeIdx src.nx src.ny).foldl (tstep src) tmp

/-- `transpose_matrix(h2)` from `utils/Statistics.py`: clone `h2` into
`hTemp`, run the copy loop, set the swapped axis titles on `hTemp`, then
`h2.Reset(); h2.Add(hTemp)`.  `Reset` and `Add` move contents and stored
squared errors but leave `h2`'s own axis titles untouched (the swapped titles
live only on the discarded temporary). -/
def transpose_matrix (h2 : TH2 ℚ) : TH2 ℚ :=
  let hTemp := transposeLoop h2 h2
  { h2 with content := hTemp.content, err2 := hTemp.err2 }

/-! ## `utils/Statistics.py`: `divide_by_bin_width` and `run_toy` -/

/-- `divide_by_bin_width(histo)` for a `TH1`: each visible bin's content and
error are divided by the bin width (the error division squares to a division
of the stored square by `width^2`). -/
def divide_by_bin_width (h : TH1) : TH1 :=
  { h with
    content := fun i => if 1 ≤ i ∧ i ≤ h.nbins then h.content i / h.width i else h.content i
    err2 := fun i => if 1 ≤ i ∧ i ≤ h.nbins then h.err2 i / (h.width i) ^ 2 else h.err2 i }

/-- `run_toy(histo, toy_type)`: every visible bin content is replaced by a
random draw; Poisson mode draws `PoissonD(content)`, any other mode draws
`Gaus(content, GetBinError(i))`.  The external `TRandom` draws are modelled
by the input streams `poisson` (one Poisson sample per bin, for the given
mean) and `gausZ` (one standard-normal sample per bin);
`TRandom::Gaus(mean, sigma)` returns `mean + sigma * z`, and
`GetBinError i = sqrt(err2 i)`.  Only contents are written, so the result is
the new content function. -/
noncomputable def run_toy_content (h : TH1) (toy_type : String)
    (poisson : ℕ → ℚ → ℝ) (gausZ : ℕ → ℝ) : ℕ → ℝ :=
  fun i =>
    if 1 ≤ i ∧ i ≤ h.nbins then
      (if toy_type = "Poisson" then poisson i (h.content i)
       else (h.content i : ℝ) + Real.sqrt (h.err2 i) * gausZ i)
    else (h.content i : ℝ)

/-! ## `Spectrum.compute_differential_cross_sections`: the cross-section
pipeline after unfolding (lines 872-891 of `core/Spectrum.py`). -/

/-- The result of the normalization steps: absolute and relative
differential cross-sections, plus the total cross-section `m_totalXs`. -/
structure XsResult where
  absXs : TH1
  totalXs : ℚ
  relXs : TH1

/-- Efficiency computation (lines 849-852): project the response onto the
truth axis over x bins `1 .. m_nbins`, then ROOT-divide by the generated
histogram. -/
def efficiencyOf (response : TH2 ℚ) (generated : TH1) (m_nbins : ℕ) : TH1 :=
  (response.projectionY 1 m_nbins).divide generated

/-- The tail of `compute_differential_cross_sections` (lines 875-891):
`h_absXs = unfolded.Clone(); h_absXs.Divide(h_efficiency);
m_totalXs = h_absXs.Integral(); h_relXs = h_absXs.Clone();
h_relXs.Scale(1.0/m_totalXs); divide_by_bin_width(h_relXs);
divide_by_bin_width(h_absXs); h_absXs.Scale(1/lumi)`.
The two scale factors are computed by Python float division, which raises
`ZeroDivisionError` when `m_totalXs` or `lumi` is zero — modelled as `none`.
(Bin widths come from ROOT axes with strictly increasing edges and are
positive, so the rational width divisions are the Python ones.) -/
def compute_xs (unfolded efficiency : TH1) (lumi : ℚ) : Option XsResult :=
  let absXs0 := unfolded.divide efficiency
  let totalXs := absXs0.integral
  if totalXs = 0 then none
  else
    let relXs0 := absXs0.scale (1 / totalXs)
    let relXs := divide_by_bin_width relXs0
    let absXs1 := divide_by_bin_width absXs0
    if lumi = 0 then none
    else some { absXs := absXs1.scale (1 / lumi), totalXs := totalXs, relXs := relXs }

/-! ## `Spectrum._build_matrices` (lines 442-524 of `core/Spectrum.py`)

The loop runs over `i in range(m_nbins)`, `j in range(i+1)`; for each pair it
accumulates `num`, `den1`, `den2` over the `nToys` replicas, stores the
covariance `num` and the correlation `num / sqrt(den1 * den2)` at cell
`(i+1, j+1)`, mirrors both to `(j+1, i+1)` when `i ≠ j`, and stores the
diagonal `num` in the 1D variance histograms when `i = j`.  Toy replica `t`
of bin `b` has value `v b t`, and `m b` is the toy mean `m_sx[b]`. -/

/-- The accumulator `num += (v[i][t] - m[i]) * (v[j][t] - m[j]) / nToys`. -/
def covNum (v : ℕ → ℕ → ℚ) (m : ℕ → ℚ) (N : ℕ) (i j : ℕ) : ℚ :=
  ∑ t in Finset.range N, (v i t - m i) * (v j t - m j) / N

/-- The accumulator `den1 += (v[i][t] - m[i]) * (v[i][t] - m[i]) / nToys`. -/
def covDen1 (v : ℕ → ℕ → ℚ) (m : ℕ → ℚ) (N : ℕ) (i j : ℕ) : ℚ :=
  ∑ t in Finset.range N, (v i t - m i) * (v i t - m i) / N

/-- The accumulator `den2 += (v[j][t] - m[j]) * (v[j][t] - m[j]) / nToys`. -/
def covDen2 (v : ℕ → ℕ → ℚ) (m : ℕ → ℚ) (N : ℕ) (i j : ℕ) : ℚ :=
  ∑ t in Finset.range N, (v j t - m j) * (v j t - m j) / N

/-- The correlation value `num / math.sqrt(den1 * den2)` (line 510/513). -/
noncomputable def corrVal (v : ℕ → ℕ → ℚ) (m : ℕ → ℚ) (N : ℕ) (i j : ℕ) : ℝ :=
  (covNum v m N i j : ℝ) / Real.sqrt ((covDen1 v m N i j * covDen2 v m N i j : ℚ) : ℝ)

/-- The toy mean `m_sx[b]` as computed in `_run_toys_job`: the running sum of
the replica values divided by `nToys`. -/
def toyMean (v : ℕ → ℕ → ℚ) (N : ℕ) (b : ℕ) : ℚ :=
  (∑ t in Finset.range N, v b t) / N

/-- The pairs `(i, j)`, `0 ≤ j ≤ i < n`, in the order of the nested loops
`for i in range(m_nbins): for j in range(i+1):`. -/
def pairList (n : ℕ) : List (ℕ × ℕ) :=
  (List.range n).flatMap fun i => (List.range (i + 1)).map fun j => (i, j)

/-- The pair of writes performed for one `(i, j)` on one 2D matrix: store `v`
at `(i+1, j+1)` and, when `i ≠ j`, mirror it to `(j+1, i+1)`. -/
def writePair {α : Type} (h : TH2 α) (i j : ℕ) (v : α) : TH2 α :=
  let h1 := h.setBC (i + 1) (j + 1) v
  if i ≠ j then h1.setBC (j + 1) (i + 1) v else h1

/-- The diagonal write on a 1D variance histogram: when `i = j`, store `v` at
bin `i+1`. -/
def writeVar (h : TH1) (i j : ℕ) (v : ℚ) : TH1 :=
  if i = j then h.setBC (i + 1) v else h

/-- The six histograms `_build_matrices` fills. -/
structure BuildMats where
  cov_abs : TH2 ℚ
  cov_rel : TH2 ℚ
  corr_abs : TH2 ℝ
  corr_rel : TH2 ℝ
  var_abs : TH1
  var_rel : TH1

/-- The initial matrices (lines 450-457): reset clones of the response for
the four 2D matrices and reset clones of the data histogram for the two
variance histograms. -/
def initMats (response : TH2 ℚ) (data : TH1) : BuildMats :=
  { cov_abs := response.resetQ
    cov_rel := response.resetQ
    corr_abs := response.resetR
    corr_rel := response.resetR
    var_abs := data.reset
    var_rel := data.reset }

/-- The writes of one successful `(i, j)` iteration of the matrix loop
(lines 510-524), in value form. -/
noncomputable def buildStep (vA vR : ℕ → ℕ → ℚ) (mA mR : ℕ → ℚ) (N : ℕ)
    (M : BuildMats) (p : ℕ × ℕ) : BuildMats :=
  { cov_abs := writePair M.cov_abs p.1 p.2 (covNum vA mA N p.1 p.2)
    cov_rel := writePair M.cov_rel p.1 p.2 (covNum vR mR N p.1 p.2)
    corr_abs := writePair M.corr_abs p.1 p.2 (corrVal vA mA N p.1 p.2)
    corr_rel := writePair M.corr_rel p.1 p.2 (corrVal vR mR N p.1 p.2)
    var_abs := writeVar M.var_abs p.1 p.2 (covNum vA mA N p.1 p.2)
    var_rel := writeVar M.var_rel p.1 p.2 (covNum vR mR N p.1 p.2) }

/-- One iteration of the matrix loop with Python's exception semantics: the
divisions `num_abs / math.sqrt(den1_abs * den2_abs)` and
`num_rel / math.sqrt(den1_rel * den2_rel)` are performed with no guard, so a
zero denominator raises `ZeroDivisionError` (modelled as `none`); the
denominators are accumulated sums of squares and hence never negative. -/
noncomputable def buildStepChecked (vA vR : ℕ → ℕ → ℚ) (mA mR : ℕ → ℚ) (N : ℕ)
    (M : BuildMats) (p : ℕ × ℕ) : Option BuildMats :=
  if covDen1 vA mA N p.1 p.2 * covDen2 vA mA N p.1 p.2 = 0 then none
  else if covDen1 vR mR N p.1 p.2 * covDen2 vR mR N p.1 p.2 = 0 then none
  else some (buildStep vA vR mA mR N M p)

/-- The value-level matrix loop: fold of the per-pair writes over all pairs
`j ≤ i < n`.  This is what `_build_matrices` computes when no iteration
raises. -/
noncomputable def build_matrices_run (vA vR : ℕ → ℕ → ℚ) (mA mR : ℕ → ℚ)
    (N n : ℕ) (response : TH2 ℚ) (data : TH1) : BuildMats :=
  (pairList n).foldl (buildStep vA vR mA mR N) (initMats response data)

/-- `_build_matrices` with Python's exception semantics: the loop stops with
`ZeroDivisionError` (`none`) at the first pair whose accumulated variances
vanish, otherwise it completes and returns the filled matrices. -/
noncomputable def build_matrices (vA vR : ℕ → ℕ → ℚ) (mA mR : ℕ → ℚ)
    (N n : ℕ) (response : TH2 ℚ) (data : TH1) : Option BuildMats :=
  (pairList n).foldlM (buildStepChecked vA vR mA mR N) (initMats response data)

/-! ## `core/Unfolder.py` -/

/-- An all-zero `TH1D()` as created by the ROOT default constructor. -/
def emptyTH1 : TH1 :=
  { nbins := 0, content := fun _ => 0, err2 := fun _ => 0, width := fun _ => 0 }

/-- An all-zero `TH2D()` as created by the ROOT default constructor. -/
def emptyTH2 : TH2 ℚ :=
  { nx := 0, ny := 0, content := fun _ _ => 0, err2 := fun _ _ => 0
    widthX := fun _ => 0, widthY := fun _ => 0, titleX := "", titleY := "" }

/-- The `Unfolder` object state: configuration strings, the histograms it
holds, and `m_unfolder`, the backend algorithm object — `None` until
`do_unfold` selects one, recorded here by the backend's class name. -/
structure Unfolder where
  method : String
  error : String
  parameter : ℚ
  nToys : ℕ
  h_data : TH1
  h_response : TH2 ℚ
  h_unfolded : TH1
  m_unfolder : Option String

/-- `Unfolder.__init__(method, error, parameter, nToys=1000)` (lines 23-50):
plain attribute assignments and default-constructed histograms.  The method
string is stored without any validation, so construction never fails for any
method string. -/
def Unfolder.init (method error : String) (parameter : ℚ) (nToys : ℕ) : Unfolder :=
  { method := method, error := error, parameter := parameter, nToys := nToys
    h_data := emptyTH1, h_response := emptyTH2, h_unfolded := emptyTH1
    m_unfolder := none }

/-- The `if/elif` chain of `do_unfold` (lines 141-155): the five recognized
method identifiers and the backend each one instantiates; any other string
falls through every branch and selects nothing. -/
def methodBackend (method : String) : Option String :=
  if method = "Inversion" then some "RooUnfoldInvert"
  else if method = "SVD" then some "RooUnfoldSVD"
  else if method = "Bayes" then some "RooUnfoldBayes"
  else if method = "BinByBin" then some "RooUnfoldBinByBin"
  else if method = "SimNeal" then some "QUnfoldQUBO"
  else none

/-- `Unfolder.do_unfold()` (lines 120-186).  The numeric work is done by the
external RooUnfold / QUnfold backends; modelled from the spec, the backend's
output truth-level histogram is abstracted as the input `backendResult`.
What the source itself decides is the dispatch: an unrecognized method leaves
`self.m_unfolder = None` from construction, and the unconditional follow-up
call `self.m_unfolder.SetNToys(...)` then raises `AttributeError` (`none`).
A `"SimNeal"` unfolder asked for `"kCovToy"` errors would call the missing
`Hunfold` attribute of `QUnfoldQUBO` (`none`); with an error string other
than the two known ones no result histogram is assigned. -/
def Unfolder.do_unfold (u : Unfolder) (backendResult : TH1) : Option Unfolder :=
  match methodBackend u.method with
  | none => none
  | some b =>
    if u.error = "kNoError" then
      some { u with m_unfolder := some b, h_unfolded := backendResult }
    else if u.error = "kCovToy" then
      if u.method = "SimNeal" then none
      else some { u with m_unfolder := some b, h_unfolded := backendResult }
    else some { u with m_unfolder := some b }

/-! ## `Spectrum._initialize` (lines 353-440 of `core/Spectrum.py`) -/

/-- The Spectrum fields read or written by `_initialize`.  `m_output` is the
handle returned by `ROOT.TFile.Open(self.output, "RECREATE")`; the external
file system is modelled by the counter `handle_ctr`: each `Open` call returns
a fresh handle, distinct from every previously returned one. -/
structure SpectrumState where
  syst_name : String
  method : String
  unfolding_parameter : ℚ
  output : String
  staterr : String
  nToys : ℕ
  ignore_background : Bool
  is_init : Bool
  m_toy_type : String
  handle_ctr : ℕ
  m_output : ℕ
  h_data : TH1
  h_signal_reco : TH1
  h_response : TH2 ℚ
  h_background : TH1
  h_generated : TH1
  h_data_minus_bkg : TH1
  unfolder : Option Unfolder

/-- `Spectrum._initialize`: fills the default output path if empty, then
unconditionally reopens `self.m_output = ROOT.TFile.Open(self.output,
"RECREATE")`, and only then checks `is_initialized` — on an already
initialized Spectrum it logs a warning and returns, with the freshly
reopened file handle already assigned.  The first-call path performs the
background subtraction `h_data_minus_bkg = h_data.Clone(); Add(bkg, -1)`
(skipped if the background is ignored), parses `staterr`, and constructs the
`Unfolder` (name/stats/directory cosmetics on the histograms are I/O
metadata, not value state, and are not modelled). -/
def Spectrum.initStep (st : SpectrumState) : SpectrumState :=
  let st1 :=
    if st.output = "" then
      { st with output := st.syst_name ++ "_" ++ st.method ++ "_" ++
          toString st.unfolding_parameter ++ "_DiffXs.root" }
    else st
  let st2 := { st1 with m_output := st1.handle_ctr + 1, handle_ctr := st1.handle_ctr + 1 }
  if st2.is_init then st2
  else
    let dmb :=
      if st2.ignore_background then st2.h_data
      else st2.h_data.addScaled st2.h_background (-1)
    let arr := st2.staterr.splitOn ":"
    let unf :=
      if arr = ["analytical"] then
        Unfolder.init st2.method "kCovToy" st2.unfolding_parameter st2.nToys
      else Unfolder.init st2.method "kNoError" st2.unfolding_parameter 1000
    let tt :=
      if arr = ["analytical"] then st2.m_toy_type
      else if arr = ["toys"] then
        (if st2.syst_name ≠ "MCstat" then "Poisson" else "Gauss")
      else if arr.length = 2 ∧ arr.headI = "toys" then arr.getD 1 ""
      else st2.m_toy_type
    { st2 with
      h_data_minus_bkg := dmb
      unfolder := some unf
      m_toy_type := tt
      is_init := true }

/-! ## `Spectrum._run_toys_job` (lines 526-830 of `core/Spectrum.py`) -/

/-- The Spectrum fields read or written by `_run_toys_job`. -/
structure ToyJobState where
  nToys : ℕ
  m_nbins : ℕ
  h_absXs : TH1
  h_relXs : TH1
  h_response : TH2 ℚ
  h_data : TH1
  v_toys_abs : ℕ → ℕ → ℚ
  v_toys_rel : ℕ → ℕ → ℚ
  m_sx_abs : ℕ → ℚ
  m_sx_rel : ℕ → ℚ
  matrices : Option BuildMats
  m_totalXs_stat_err : ℚ

/-- `Spectrum._run_toys_job`.  It first re-reads
`self.m_nbins = self.h_absXs.GetNbinsX()`; everything else is guarded by
`if self.nToys > 0`.  Modelled from the spec: inside the loop, replica `t`
is produced by smearing the data with the ROOT RNG and re-running
subtraction, acceptance, RooUnfold unfolding, efficiency and bin-width
normalization through the external backends; the final per-bin values of
replica `t` are abstracted as the inputs `toyAbs b t` / `toyRel b t`, the
`GetRMS()` of the per-bin toy histograms as `rmsAbs` / `rmsRel`, and
`h_totalXs.GetRMS()` as `totalXsRMS`.  What the source itself computes is
kept: the toy-value records `v_toys`, the means `m_sx[b] / nToys`
(`toyMean`), the per-bin statistical errors `SetBinError(b+1, RMS)`, the
call to `_build_matrices`, and `m_totalXs_stat_err`.  A
`ZeroDivisionError` escaping `_build_matrices` aborts the whole job
(`none`). -/
noncomputable def run_toys_job (st : ToyJobState)
    (toyAbs toyRel : ℕ → ℕ → ℚ) (rmsAbs rmsRel : ℕ → ℚ) (totalXsRMS : ℚ) :
    Option ToyJobState :=
  let st1 := { st with m_nbins := st.h_absXs.nbins }
  if 0 < st1.nToys then
    let n := st1.m_nbins
    let nT := st1.nToys
    let mA := toyMean toyAbs nT
    let mR := toyMean toyRel nT
    let absXs :=
      { st1.h_absXs with
        err2 := fun i => if 1 ≤ i ∧ i ≤ n then (rmsAbs (i - 1)) ^ 2 else st1.h_absXs.err2 i }
    let relXs :=
      { st1.h_relXs with
        err2 := fun i => if 1 ≤ i ∧ i ≤ n then (rmsRel (i - 1)) ^ 2 else st1.h_relXs.err2 i }
    match build_matrices toyAbs toyRel mA mR nT n st1.h_response st1.h_data with
    | none => none
    | some M =>
      some { st1 with
        h_absXs := absXs
        h_relXs := relXs
        v_toys_abs := toyAbs
        v_toys_rel := toyRel
        m_sx_abs := mA
        m_sx_rel := mR
        matrices := some M
        m_totalXs_stat_err := totalXsRMS }
  else some st1

/-! ### Concrete sample inputs used by witnesses and counterexamples -/

/-- A 1×1 unit-width response template. -/
def sampleR1 : TH2 ℚ :=
  ⟨1, 1, fun _ _ => 0, fun _ _ => 0, fun _ => 1, fun _ => 1, "x", "y"⟩

/-- A one-bin unit-width data template. -/
def sampleD1 : TH1 := ⟨1, fun _ => 0, fun _ => 0, fun _ => 1⟩

/-- Toy values `v b t = t`: two distinct replicas, hence nonzero variance. -/
def sampleToys : ℕ → ℕ → ℚ := fun _ t => t

/-- Constant toy values `v b t = 3`: every replica equals the mean. -/
def constToys : ℕ → ℕ → ℚ := fun _ _ => 3

-- ===== end of definitions; supporting lemmas and claim theorems follow =====

/-! ### Lemmas about `TH2.setCell` and the transpose loop -/

lemma TH2.setCell_nx {α : Type} (h : TH2 α) (x y : ℕ) (c e : α) :
    (h.setCell x y c e).nx = h.nx := by
  unfold TH2.setCell; split <;> rfl

lemma TH2.setCell_ny {α : Type} (h : TH2 α) (x y : ℕ) (c e : α) :
    (h.setCell x y c e).ny = h.ny := by
  unfold TH2.setCell; split <;> rfl

lemma TH2.setCell_content {α : Type} (h : TH2 α) (x y : ℕ) (c e : α) (a b : ℕ) :
    (h.setCell x y c e).content a b =
      if (a = x ∧ b = y) ∧ 1 ≤ x ∧ x ≤ h.nx ∧ 1 ≤ y ∧ y ≤ h.ny then c
      else h.content a b := by
  unfold TH2.setCell
  by_cases hg : 1 ≤ x ∧ x ≤ h.nx ∧ 1 ≤ y ∧ y ≤ h.ny
  · simp only [hg, if_true, and_true]
  · simp only [hg, if_false, and_false]

lemma TH2.setCell_err2 {α : Type} (h : TH2 α) (x y : ℕ) (c e : α) (a b : ℕ) :
    (h.setCell x y c e).err2 a b =
      if (a = x ∧ b = y) ∧ 1 ≤ x ∧ x ≤ h.nx ∧ 1 ≤ y ∧ y ≤ h.ny then e
      else h.err2 a b := by
  unfold TH2.setCell
  by_cases hg : 1 ≤ x ∧ x ≤ h.nx ∧ 1 ≤ y ∧ y ≤ h.ny
  · simp only [hg, if_true, and_true]
  · simp only [hg, if_false, and_false]

lemma tstep_dims (src acc : TH2 ℚ) (p : ℕ × ℕ) :
    (tstep src acc p).nx = acc.nx ∧ (tstep src acc p).ny = acc.ny := by
  exact ⟨TH2.setCell_nx _ _ _ _ _, TH2.setCell_ny _ _ _ _ _⟩

/-- Characterization of the transpose copy loop over an arbitrary pair list:
cell `(a, b)` of the accumulator holds `src.content b a` exactly when some
visited pair `(b, a)` targeted it and the cell is in range; otherwise it is
untouched. -/
lemma transposeFold_spec (src : TH2 ℚ) (L : List (ℕ × ℕ)) (tmp : TH2 ℚ)
    (hx : tmp.nx = src.nx) (hy : tmp.ny = src.ny) (a b : ℕ) :
    (L.foldl (tstep src) tmp).content a b =
      (if (∃ p ∈ L, p.1 = b ∧ p.2 = a) ∧ 1 ≤ a ∧ a ≤ src.nx ∧ 1 ≤ b ∧ b ≤ src.ny
       then src.content b a else tmp.content a b) ∧
    (L.foldl (tstep src) tmp).err2 a b =
      (if (∃ p ∈ L, p.1 = b ∧ p.2 = a) ∧ 1 ≤ a ∧ a ≤ src.nx ∧ 1 ≤ b ∧ b ≤ src.ny
       then src.err2 b a else tmp.err2 a b) := by
  induction L generalizing tmp with
  | nil => simp
  | cons p L ih =>
    rw [List.foldl_cons]
    have hdx : (tstep src tmp p).nx = src.nx := by rw [(tstep_dims src tmp p).1, hx]
    have hdy : (tstep src tmp p).ny = src.ny := by rw [(tstep_dims src tmp p).2, hy]
    obtain ⟨ihc, ihe⟩ := ih (tstep src tmp p) hdx hdy
    rw [ihc, ihe]
    by_cases hr : 1 ≤ a ∧ a ≤ src.nx ∧ 1 ≤ b ∧ b ≤ src.ny
    · by_cases hp : p.1 = b ∧ p.2 = a
      · have hcell : (tstep src tmp p).content a b = src.content b a := by
          rw [tstep, TH2.setCell_content, if_pos]
          · rw [hp.1, hp.2]
          · refine ⟨⟨hp.2.symm, hp.1.symm⟩, ?_⟩
            rw [hp.1, hp.2, hx, hy]
            exact ⟨hr.1, hr.2.1, hr.2.2.1, hr.2.2.2⟩
        have hcele : (tstep src tmp p).err2 a b = src.err2 b a := by
          rw [tstep, TH2.setCell_err2, if_pos]
          · rw [hp.1, hp.2]
          · refine ⟨⟨hp.2.symm, hp.1.symm⟩, ?_⟩
            rw [hp.1, hp.2, hx, hy]
            exact ⟨hr.1, hr.2.1, hr.2.2.1, hr.2.2.2⟩
        have hex : (∃ q ∈ p :: L, q.1 = b ∧ q.2 = a) ∧
            1 ≤ a ∧ a ≤ src.nx ∧ 1 ≤ b ∧ b ≤ src.ny :=
          ⟨⟨p, List.mem_cons_self _ _, hp⟩, hr⟩
        rw [if_pos hex, if_pos hex]
        constructor
        · split
          · rfl
          · exact hcell
        · split
          · rfl
          · exact hcele
      · have hcell : (tstep src tmp p).content a b = tmp.content a b := by
          rw [tstep, TH2.setCell_content, if_neg]
          intro hcon
          exact hp ⟨hcon.1.2.symm, hcon.1.1.symm⟩
        have hcele : (tstep src tmp p).err2 a b = tmp.err2 a b := by
          rw [tstep, TH2.setCell_err2, if_neg]
          intro hcon
          exact hp ⟨hcon.1.2.symm, hcon.1.1.symm⟩
        have hiff : ((∃ q ∈ p :: L, q.1 = b ∧ q.2 = a) ∧
              1 ≤ a ∧ a ≤ src.nx ∧ 1 ≤ b ∧ b ≤ src.ny) ↔
            ((∃ q ∈ L, q.1 = b ∧ q.2 = a) ∧
              1 ≤ a ∧ a ≤ src.nx ∧ 1 ≤ b ∧ b ≤ src.ny) := by
          constructor
          · rintro ⟨⟨q, hq, hqt⟩, hrr⟩
            rcases List.mem_cons.1 hq with rfl | hq
            · exact absurd hqt hp
            · exact ⟨⟨q, hq, hqt⟩, hrr⟩
          · rintro ⟨⟨q, hq, hqt⟩, hrr⟩
            exact ⟨⟨q, List.mem_cons_of_mem _ hq, hqt⟩, hrr⟩
        rw [hcell, hcele]
        constructor
        · rw [if_congr hiff rfl rfl]
        · rw [if_congr hiff rfl rfl]
    · have hcell : (tstep src tmp p).content a b = tmp.content a b := by
        rw [tstep, TH2.setCell_content, if_neg]
        intro hcon
        apply hr
        obtain ⟨⟨ha, hb⟩, h1, h2, h3, h4⟩ := hcon
        subst ha; subst hb
        rw [hx] at h2; rw [hy] at h4
        exact ⟨h1, h2, h3, h4⟩
      have hcele : (tstep src tmp p).err2 a b = tmp.err2 a b := by
        rw [tstep, TH2.setCell_err2, if_neg]
        intro hcon
        apply hr
        obtain ⟨⟨ha, hb⟩, h1, h2, h3, h4⟩ := hcon
        subst ha; subst hb
        rw [hx] at h2; rw [hy] at h4
        exact ⟨h1, h2, h3, h4⟩
      rw [hcell, hcele]
      constructor
      · rw [if_neg (fun hcon => hr hcon.2), if_neg (fun hcon => hr hcon.2)]
      · rw [if_neg (fun hcon => hr hcon.2), if_neg (fun hcon => hr hcon.2)]

lemma mem_transposeIdx (nx ny i j : ℕ) :
    (i, j) ∈ transposeIdx nx ny ↔ 1 ≤ i ∧ i ≤ nx ∧ 1 ≤ j ∧ j ≤ ny := by
  simp only [transposeIdx, List.mem_flatMap, List.mem_map, List.mem_range'_1,
    Prod.mk.injEq]
  constructor
  · rintro ⟨a, ⟨ha1, ha2⟩, b, ⟨hb1, hb2⟩, rfl, rfl⟩
    exact ⟨ha1, by omega, hb1, by omega⟩
  · rintro ⟨h1, h2, h3, h4⟩
    exact ⟨i, ⟨h1, by omega⟩, j, ⟨h3, by omega⟩, rfl, rfl⟩

lemma transpose_matrix_nx (h : TH2 ℚ) : (transpose_matrix h).nx = h.nx := rfl

lemma transpose_matrix_ny (h : TH2 ℚ) : (transpose_matrix h).ny = h.ny := rfl

/-- Value-level characterization of `transpose_matrix`: a cell inside the
square `min nx ny` block receives the mirrored value, every other visible
cell keeps its original value (its write landed outside the clone's range
and was dropped by ROOT's bounds check, while the cell itself, cloned from
the original, was never overwritten). -/
lemma transpose_matrix_spec (h : TH2 ℚ) (a b : ℕ) :
    ((transpose_matrix h).content a b =
      if 1 ≤ a ∧ a ≤ h.nx ∧ a ≤ h.ny ∧ 1 ≤ b ∧ b ≤ h.nx ∧ b ≤ h.ny
      then h.content b a else h.content a b) ∧
    ((transpose_matrix h).err2 a b =
      if 1 ≤ a ∧ a ≤ h.nx ∧ a ≤ h.ny ∧ 1 ≤ b ∧ b ≤ h.nx ∧ b ≤ h.ny
      then h.err2 b a else h.err2 a b) := by
  have hspec := transposeFold_spec h (transposeIdx h.nx h.ny) h rfl rfl a b
  have hcond : ((∃ p ∈ transposeIdx h.nx h.ny, p.1 = b ∧ p.2 = a) ∧
      1 ≤ a ∧ a ≤ h.nx ∧ 1 ≤ b ∧ b ≤ h.ny) ↔
      (1 ≤ a ∧ a ≤ h.nx ∧ a ≤ h.ny ∧ 1 ≤ b ∧ b ≤ h.nx ∧ b ≤ h.ny) := by
    constructor
    · rintro ⟨⟨p, hp, hp1, hp2⟩, hr⟩
      obtain ⟨i, j⟩ := p
      simp only at hp1 hp2
      subst hp1; subst hp2
      rw [mem_transposeIdx] at hp
      exact ⟨hr.1, hr.2.1, hp.2.2.2, hr.2.2.1, hp.2.1, hr.2.2.2⟩
    · rintro ⟨h1, h2, h3, h4, h5, h6⟩
      exact ⟨⟨(b, a), (mem_transposeIdx _ _ _ _).2 ⟨h4, h5, h1, h3⟩, rfl, rfl⟩,
        h1, h2, h4, h6⟩
  constructor
  · have hgoal := hspec.1
    rw [if_congr hcond rfl rfl] at hgoal
    exact hgoal
  · have hgoal := hspec.2
    rw [if_congr hcond rfl rfl] at hgoal
    exact hgoal

/-- **C4**: for every 2D histogram `h`, applying `transpose_matrix` twice
restores `h` exactly — every cell's content and stored (squared) error equal
their original values, the dimensions are preserved, and the x/y axis titles
equal the originals. -/
theorem transpose_transpose_id (h : TH2 ℚ) (a b : ℕ) :
    (transpose_matrix (transpose_matrix h)).content a b = h.content a b ∧
    (transpose_matrix (transpose_matrix h)).err2 a b = h.err2 a b ∧
    (transpose_matrix (transpose_matrix h)).nx = h.nx ∧
    (transpose_matrix (transpose_matrix h)).ny = h.ny ∧
    (transpose_matrix (transpose_matrix h)).titleX = h.titleX ∧
    (transpose_matrix (transpose_matrix h)).titleY = h.titleY := by
  refine ⟨?_, ?_, rfl, rfl, rfl, rfl⟩
  · rw [(transpose_matrix_spec (transpose_matrix h) a b).1]
    rw [transpose_matrix_nx, transpose_matrix_ny]
    by_cases hc : 1 ≤ a ∧ a ≤ h.nx ∧ a ≤ h.ny ∧ 1 ≤ b ∧ b ≤ h.nx ∧ b ≤ h.ny
    · rw [if_pos hc, (transpose_matrix_spec h b a).1,
        if_pos ⟨hc.2.2.2.1, hc.2.2.2.2.1, hc.2.2.2.2.2, hc.1, hc.2.1, hc.2.2.1⟩]
    · rw [if_neg hc, (transpose_matrix_spec h a b).1, if_neg hc]
  · rw [(transpose_matrix_spec (transpose_matrix h) a b).2]
    rw [transpose_matrix_nx, transpose_matrix_ny]
    by_cases hc : 1 ≤ a ∧ a ≤ h.nx ∧ a ≤ h.ny ∧ 1 ≤ b ∧ b ≤ h.nx ∧ b ≤ h.ny
    · rw [if_pos hc, (transpose_matrix_spec h b a).2,
        if_pos ⟨hc.2.2.2.1, hc.2.2.2.2.1, hc.2.2.2.2.2, hc.1, hc.2.1, hc.2.2.1⟩]
    · rw [if_neg hc, (transpose_matrix_spec h a b).2, if_neg hc]

/-! ### The cross-section pipeline: C1, C7, C9 -/

/-- Closed form of the pipeline tail when neither Python division raises. -/
lemma compute_xs_eq (unfolded efficiency : TH1) (lumi : ℚ)
    (hT : (unfolded.divide efficiency).integral ≠ 0) (hl : lumi ≠ 0) :
    compute_xs unfolded efficiency lumi = some
      { absXs := (divide_by_bin_width (unfolded.divide efficiency)).scale (1 / lumi)
        totalXs := (unfolded.divide efficiency).integral
        relXs := divide_by_bin_width ((unfolded.divide efficiency).scale
          (1 / (unfolded.divide efficiency).integral)) } := by
  simp only [compute_xs]
  rw [if_neg hT, if_neg hl]

/-- **C1**: after unfolding, the absolute cross-section is the unfolded
histogram ROOT-divided bin-wise by the efficiency; the total cross-section
`m_totalXs` is the integral of that ratio histogram taken before any
bin-width division; the relative cross-section is the ratio histogram scaled
by `1/totalXs`; both are then divided bin-wise by their bin widths, and the
absolute one is additionally scaled by `1/lumi` while the relative one is
not. -/
theorem compute_xs_formulas (unfolded efficiency : TH1) (lumi : ℚ)
    (hT : (unfolded.divide efficiency).integral ≠ 0) (hl : lumi ≠ 0) :
    ∃ r : XsResult, compute_xs unfolded efficiency lumi = some r ∧
      r.totalXs = ∑ k in Finset.range unfolded.nbins,
        (if efficiency.content (k + 1) = 0 then 0
         else unfolded.content (k + 1) / efficiency.content (k + 1)) ∧
      ∀ i, 1 ≤ i → i ≤ unfolded.nbins →
        r.absXs.content i = (1 / lumi) *
          ((if efficiency.content i = 0 then 0
            else unfolded.content i / efficiency.content i) / unfolded.width i) ∧
        r.relXs.content i =
          ((1 / r.totalXs) * (if efficiency.content i = 0 then 0
            else unfolded.content i / efficiency.content i)) / unfolded.width i := by
  refine ⟨_, compute_xs_eq unfolded efficiency lumi hT hl, rfl, ?_⟩
  intro i h1 h2
  constructor
  · simp only [TH1.scale, divide_by_bin_width, TH1.divide, TH1.integral]
    rw [if_pos ⟨h1, h2⟩]
  · simp only [TH1.scale, divide_by_bin_width, TH1.divide, TH1.integral]
    rw [if_pos ⟨h1, h2⟩]

/-- Witness for C1 at a concrete one-bin input: unfolded content 6,
efficiency 3, bin width 2, luminosity 2. -/
theorem compute_xs_formulas_witness :
    ((⟨1, fun _ => 6, fun _ => 0, fun _ => 2⟩ : TH1).divide
        ⟨1, fun _ => 3, fun _ => 0, fun _ => 1⟩).integral ≠ 0 ∧
    (2 : ℚ) ≠ 0 ∧
    ∃ r : XsResult, compute_xs ⟨1, fun _ => 6, fun _ => 0, fun _ => 2⟩
        ⟨1, fun _ => 3, fun _ => 0, fun _ => 1⟩ 2 = some r ∧
      r.totalXs = ∑ k in Finset.range 1,
        (if (3 : ℚ) = 0 then 0 else (6 : ℚ) / 3) ∧
      ∀ i, 1 ≤ i → i ≤ 1 →
        r.absXs.content i = (1 / 2) * ((if (3 : ℚ) = 0 then 0 else (6 : ℚ) / 3) / 2) ∧
        r.relXs.content i =
          ((1 / r.totalXs) * (if (3 : ℚ) = 0 then 0 else (6 : ℚ) / 3)) / 2 :=
  ⟨by norm_num [TH1.integral, TH1.divide, Finset.sum_range_succ], by norm_num,
    compute_xs_formulas ⟨1, fun _ => 6, fun _ => 0, fun _ => 2⟩
      ⟨1, fun _ => 3, fun _ => 0, fun _ => 1⟩ 2
      (by norm_num [TH1.integral, TH1.divide, Finset.sum_range_succ]) (by norm_num)⟩

/-- **C7 counterexample**: with a generated histogram whose first bin is 0,
the efficiency entry of that bin is *silently clamped to the finite value 0*
by ROOT's division convention — it does not become non-finite as the claim
states.  Response: 2×2 identity; generated: (0, 5). -/
theorem efficiency_zero_bin_clamped :
    (efficiencyOf
        ⟨2, 2, fun i j => if i = j then 1 else 0, fun _ _ => 0,
          fun _ => 1, fun _ => 1, "x", "y"⟩
        ⟨2, fun i => if i = 1 then 0 else 5, fun _ => 0, fun _ => 1⟩ 2).content 1 = 0 := by
  simp [efficiencyOf, TH1.divide]

/-- **C7** (amended): a zero-generated bin raises no exception: ROOT's
`Divide` silently sets that efficiency bin (content and error) to `0`; the
absolute cross-section bin, divided by the zero efficiency, is likewise
clamped to `0`; every bin with nonzero generated content gets the ordinary
ratio, and the rest of the pipeline completes. -/
theorem efficiency_zero_bin_propagates (response : TH2 ℚ) (generated unfolded : TH1)
    (m_nbins : ℕ) (lumi : ℚ) (k : ℕ) (hk0 : generated.content k = 0)
    (hT : (unfolded.divide (efficiencyOf response generated m_nbins)).integral ≠ 0)
    (hl : lumi ≠ 0) (hk1 : 1 ≤ k) (hk2 : k ≤ unfolded.nbins) :
    (efficiencyOf response generated m_nbins).content k = 0 ∧
    (∀ j, generated.content j ≠ 0 →
      (efficiencyOf response generated m_nbins).content j =
        (∑ i in Finset.range (m_nbins + 1 - 1), response.content (1 + i) j) /
          generated.content j) ∧
    ∃ r : XsResult,
      compute_xs unfolded (efficiencyOf response generated m_nbins) lumi = some r ∧
      r.absXs.content k = 0 := by
  refine ⟨?_, ?_, ?_⟩
  · simp [efficiencyOf, TH1.divide, TH2.projectionY, hk0]
  · intro j hj
    simp [efficiencyOf, TH1.divide, TH2.projectionY, hj]
  · obtain ⟨r, hr, _, hbins⟩ := compute_xs_formulas unfolded
      (efficiencyOf response generated m_nbins) lumi hT hl
    refine ⟨r, hr, ?_⟩
    have heff : (efficiencyOf response generated m_nbins).content k = 0 := by
      simp [efficiencyOf, TH1.divide, TH2.projectionY, hk0]
    rw [(hbins k hk1 hk2).1, if_pos heff]
    simp

/-- Witness for the amended C7: 2×2 identity response, generated `(0, 5)`,
unfolded contents 4, luminosity 1, zero bin `k = 1`. -/
theorem efficiency_zero_bin_propagates_witness :
    (⟨2, fun i => if i = 1 then 0 else 5, fun _ => 0, fun _ => 1⟩ : TH1).content 1 = 0 ∧
    ((⟨2, fun _ => 4, fun _ => 0, fun _ => 1⟩ : TH1).divide
      (efficiencyOf
        ⟨2, 2, fun i j => if i = j then 1 else 0, fun _ _ => 0,
          fun _ => 1, fun _ => 1, "x", "y"⟩
        ⟨2, fun i => if i = 1 then 0 else 5, fun _ => 0, fun _ => 1⟩ 2)).integral ≠ 0 ∧
    (1 : ℚ) ≠ 0 ∧
    ((efficiencyOf
        ⟨2, 2, fun i j => if i = j then 1 else 0, fun _ _ => 0,
          fun _ => 1, fun _ => 1, "x", "y"⟩
        ⟨2, fun i => if i = 1 then 0 else 5, fun _ => 0, fun _ => 1⟩ 2).content 1 = 0 ∧
      (∀ j, (⟨2, fun i => if i = 1 then 0 else 5, fun _ => 0, fun _ => 1⟩ : TH1).content j ≠ 0 →
        (efficiencyOf
          ⟨2, 2, fun i j => if i = j then 1 else 0, fun _ _ => 0,
            fun _ => 1, fun _ => 1, "x", "y"⟩
          ⟨2, fun i => if i = 1 then 0 else 5, fun _ => 0, fun _ => 1⟩ 2).content j =
          (∑ i in Finset.range (2 + 1 - 1),
            (⟨2, 2, fun i j => if i = j then 1 else 0, fun _ _ => 0,
              fun _ => 1, fun _ => 1, "x", "y"⟩ : TH2 ℚ).content (1 + i) j) /
          (⟨2, fun i => if i = 1 then 0 else 5, fun _ => 0, fun _ => 1⟩ : TH1).content j) ∧
      ∃ r : XsResult,
        compute_xs ⟨2, fun _ => 4, fun _ => 0, fun _ => 1⟩
          (efficiencyOf
            ⟨2, 2, fun i j => if i = j then 1 else 0, fun _ _ => 0,
              fun _ => 1, fun _ => 1, "x", "y"⟩
            ⟨2, fun i => if i = 1 then 0 else 5, fun _ => 0, fun _ => 1⟩ 2) 1 = some r ∧
        r.absXs.content 1 = 0) :=
  ⟨by norm_num,
    by
      norm_num [TH1.integral, TH1.divide, efficiencyOf, TH2.projectionY,
        Finset.sum_range_succ]
      decide,
    by norm_num,
    efficiency_zero_bin_propagates
      ⟨2, 2, fun i j => if i = j then 1 else 0, fun _ _ => 0,
        fun _ => 1, fun _ => 1, "x", "y"⟩
      ⟨2, fun i => if i = 1 then 0 else 5, fun _ => 0, fun _ => 1⟩
      ⟨2, fun _ => 4, fun _ => 0, fun _ => 1⟩ 2 1 1 (by norm_num)
      (by
        norm_num [TH1.integral, TH1.divide, efficiencyOf, TH2.projectionY,
          Finset.sum_range_succ]
        decide)
      (by norm_num) (by norm_num) (by norm_num)⟩

/-- **C9**: in Gaussian mode (any toy type other than `"Poisson"`), smearing
a histogram whose stored bin errors are all exactly zero leaves every bin
content unchanged: the draw is `Gaus(content, 0) = content + 0 · z`. -/
theorem run_toy_gauss_zero_errors (h : TH1) (toy_type : String)
    (poisson : ℕ → ℚ → ℝ) (gausZ : ℕ → ℝ)
    (herr : ∀ i, h.err2 i = 0) (hmode : toy_type ≠ "Poisson") (i : ℕ) :
    run_toy_content h toy_type poisson gausZ i = (h.content i : ℝ) := by
  show (if 1 ≤ i ∧ i ≤ h.nbins then
      (if toy_type = "Poisson" then poisson i (h.content i)
       else (h.content i : ℝ) + Real.sqrt (h.err2 i) * gausZ i)
    else (h.content i : ℝ)) = (h.content i : ℝ)
  rw [if_neg hmode, herr i, Rat.cast_zero, Real.sqrt_zero, zero_mul, add_zero,
    ite_self]

/-- Witness for C9: two-bin histogram with contents 5, zero errors, toy type
`"Gauss"`, arbitrary concrete random streams. -/
theorem run_toy_gauss_zero_errors_witness :
    (∀ i, (⟨2, fun _ => 5, fun _ => 0, fun _ => 1⟩ : TH1).err2 i = 0) ∧
    ("Gauss" : String) ≠ "Poisson" ∧
    run_toy_content ⟨2, fun _ => 5, fun _ => 0, fun _ => 1⟩ "Gauss"
      (fun _ _ => 37) (fun _ => 41) 1 =
      ((⟨2, fun _ => 5, fun _ => 0, fun _ => 1⟩ : TH1).content 1 : ℝ) :=
  ⟨fun _ => rfl, by decide,
    run_toy_gauss_zero_errors ⟨2, fun _ => 5, fun _ => 0, fun _ => 1⟩ "Gauss"
      (fun _ _ => 37) (fun _ => 41) (fun _ => rfl) (by decide) 1⟩

/-! ### Lemmas about the matrix-build loop: C2, C3, C10, C5 -/

lemma covNum_symm (v : ℕ → ℕ → ℚ) (m : ℕ → ℚ) (N i j : ℕ) :
    covNum v m N i j = covNum v m N j i := by
  unfold covNum
  refine Finset.sum_congr rfl fun t _ => ?_
  ring

lemma covNum_diag (v : ℕ → ℕ → ℚ) (m : ℕ → ℚ) (N i j : ℕ) :
    covNum v m N i i = covDen1 v m N i j := rfl

lemma covDen1_eq_diag (v : ℕ → ℕ → ℚ) (m : ℕ → ℚ) (N i j : ℕ) :
    covDen1 v m N i j = covDen1 v m N i i := rfl

lemma covDen2_eq_diag (v : ℕ → ℕ → ℚ) (m : ℕ → ℚ) (N i j : ℕ) :
    covDen2 v m N i j = covDen1 v m N j j := rfl

lemma covDen1_nonneg (v : ℕ → ℕ → ℚ) (m : ℕ → ℚ) (N i j : ℕ) :
    0 ≤ covDen1 v m N i j := by
  unfold covDen1
  refine Finset.sum_nonneg fun t _ => ?_
  have h1 : 0 ≤ (v i t - m i) * (v i t - m i) := mul_self_nonneg _
  have h2 : (0 : ℚ) ≤ N := Nat.cast_nonneg N
  exact div_nonneg h1 h2

lemma corrVal_symm (v : ℕ → ℕ → ℚ) (m : ℕ → ℚ) (N i j : ℕ) :
    corrVal v m N i j = corrVal v m N j i := by
  unfold corrVal
  rw [covNum_symm v m N i j, covDen1_eq_diag v m N i j, covDen2_eq_diag v m N i j,
    covDen1_eq_diag v m N j i, covDen2_eq_diag v m N j i, mul_comm]

lemma mem_pairList (n i j : ℕ) : (i, j) ∈ pairList n ↔ i < n ∧ j ≤ i := by
  simp only [pairList, List.mem_flatMap, List.mem_map, List.mem_range, Prod.mk.injEq]
  constructor
  · rintro ⟨a, ha, b, hb, rfl, rfl⟩
    exact ⟨ha, by omega⟩
  · rintro ⟨h1, h2⟩
    exact ⟨i, h1, j, by omega, rfl, rfl⟩

lemma TH2.setBC_nx {α : Type} (h : TH2 α) (x y : ℕ) (v : α) :
    (h.setBC x y v).nx = h.nx := by
  unfold TH2.setBC; split <;> rfl

lemma TH2.setBC_ny {α : Type} (h : TH2 α) (x y : ℕ) (v : α) :
    (h.setBC x y v).ny = h.ny := by
  unfold TH2.setBC; split <;> rfl

lemma TH2.setBC_content {α : Type} (h : TH2 α) (x y : ℕ) (v : α) (a b : ℕ) :
    (h.setBC x y v).content a b =
      if (a = x ∧ b = y) ∧ 1 ≤ x ∧ x ≤ h.nx ∧ 1 ≤ y ∧ y ≤ h.ny then v
      else h.content a b := by
  unfold TH2.setBC
  by_cases hg : 1 ≤ x ∧ x ≤ h.nx ∧ 1 ≤ y ∧ y ≤ h.ny
  · simp only [hg, if_true, and_true]
  · simp only [hg, if_false, and_false]

lemma writePair_nx {α : Type} (h : TH2 α) (i j : ℕ) (v : α) :
    (writePair h i j v).nx = h.nx := by
  unfold writePair
  split
  · rw [TH2.setBC_nx, TH2.setBC_nx]
  · rw [TH2.setBC_nx]

lemma writePair_ny {α : Type} (h : TH2 α) (i j : ℕ) (v : α) :
    (writePair h i j v).ny = h.ny := by
  unfold writePair
  split
  · rw [TH2.setBC_ny, TH2.setBC_ny]
  · rw [TH2.setBC_ny]

lemma writePair_content {α : Type} (h : TH2 α) (i j : ℕ) (v : α) (a b : ℕ) :
    (writePair h i j v).content a b =
      if ((a = i + 1 ∧ b = j + 1) ∨ (a = j + 1 ∧ b = i + 1)) ∧
          1 ≤ a ∧ a ≤ h.nx ∧ 1 ≤ b ∧ b ≤ h.ny then v
      else h.content a b := by
  unfold writePair
  by_cases hij : i = j
  · subst hij
    rw [if_neg (by simp), TH2.setBC_content]
    split_ifs <;> first | rfl | omega
  · rw [if_pos hij, TH2.setBC_content, TH2.setBC_content, TH2.setBC_nx, TH2.setBC_ny]
    split_ifs <;> first | rfl | omega

lemma TH1.setBC_content_1d (a : TH1) (i : ℕ) (v : ℚ) (c : ℕ) :
    (a.setBC i v).content c =
      if (c = i) ∧ 1 ≤ i ∧ i ≤ a.nbins then v else a.content c := by
  unfold TH1.setBC
  by_cases hg : 1 ≤ i ∧ i ≤ a.nbins
  · simp only [hg, if_true, and_true]
  · simp only [hg, if_false, and_false]

lemma writeVar_content (h : TH1) (i j : ℕ) (v : ℚ) (c : ℕ) :
    (writeVar h i j v).content c =
      if (i = j ∧ c = i + 1) ∧ 1 ≤ c ∧ c ≤ h.nbins then v else h.content c := by
  unfold writeVar
  by_cases hij : i = j
  · rw [if_pos hij, TH1.setBC_content_1d]
    split_ifs <;> first | rfl | omega
  · rw [if_neg hij, if_neg (fun hcon => hij hcon.1.1)]

lemma writeVar_nbins (h : TH1) (i j : ℕ) (v : ℚ) :
    (writeVar h i j v).nbins = h.nbins := by
  unfold writeVar TH1.setBC
  split
  · split <;> rfl
  · rfl

/-- Generic projection of the compound matrix-loop fold to one component. -/
lemma buildFold_proj {β : Type} (vA vR : ℕ → ℕ → ℚ) (mA mR : ℕ → ℚ) (N : ℕ)
    (f : BuildMats → β) (g : β → (ℕ × ℕ) → β)
    (hfg : ∀ M p, f (buildStep vA vR mA mR N M p) = g (f M) p)
    (L : List (ℕ × ℕ)) (M : BuildMats) :
    f (L.foldl (buildStep vA vR mA mR N) M) = L.foldl g (f M) := by
  induction L generalizing M with
  | nil => rfl
  | cons p L ih =>
    rw [List.foldl_cons, List.foldl_cons, ih, hfg]

/-- Characterization of a fold of `writePair`s with a symmetric value
function: any visited pair targeting an in-range cell leaves the canonical
value there; untargeted cells are untouched. -/
lemma pairFold_spec {α : Type} (f : ℕ → ℕ → α) (hf : ∀ a b, f a b = f b a)
    (L : List (ℕ × ℕ)) (h : TH2 α) (a b : ℕ) :
    (L.foldl (fun acc p => writePair acc p.1 p.2 (f p.1 p.2)) h).content a b =
      if (∃ p ∈ L, (a = p.1 + 1 ∧ b = p.2 + 1) ∨ (a = p.2 + 1 ∧ b = p.1 + 1)) ∧
          1 ≤ a ∧ a ≤ h.nx ∧ 1 ≤ b ∧ b ≤ h.ny
      then f (a - 1) (b - 1) else h.content a b := by
  induction L generalizing h with
  | nil => simp
  | cons p L ih =>
    rw [List.foldl_cons, ih]
    rw [writePair_nx, writePair_ny]
    by_cases hr : 1 ≤ a ∧ a ≤ h.nx ∧ 1 ≤ b ∧ b ≤ h.ny
    · by_cases hp : (a = p.1 + 1 ∧ b = p.2 + 1) ∨ (a = p.2 + 1 ∧ b = p.1 + 1)
      · have hcell : (writePair h p.1 p.2 (f p.1 p.2)).content a b = f (a - 1) (b - 1) := by
          rw [writePair_content, if_pos ⟨hp, hr⟩]
          rcases hp with ⟨ha, hb⟩ | ⟨ha, hb⟩
          · subst ha; subst hb; simp
          · subst ha; subst hb; simp [hf]
        have hex : (∃ q ∈ p :: L, (a = q.1 + 1 ∧ b = q.2 + 1) ∨ (a = q.2 + 1 ∧ b = q.1 + 1)) ∧
            1 ≤ a ∧ a ≤ h.nx ∧ 1 ≤ b ∧ b ≤ h.ny :=
          ⟨⟨p, List.mem_cons_self _ _, hp⟩, hr⟩
        rw [if_pos hex]
        split
        · rfl
        · exact hcell
      · have hcell : (writePair h p.1 p.2 (f p.1 p.2)).content a b = h.content a b := by
          rw [writePair_content, if_neg (fun hcon => hp hcon.1)]
        rw [hcell]
        have hiff : ((∃ q ∈ p :: L, (a = q.1 + 1 ∧ b = q.2 + 1) ∨ (a = q.2 + 1 ∧ b = q.1 + 1)) ∧
              1 ≤ a ∧ a ≤ h.nx ∧ 1 ≤ b ∧ b ≤ h.ny) ↔
            ((∃ q ∈ L, (a = q.1 + 1 ∧ b = q.2 + 1) ∨ (a = q.2 + 1 ∧ b = q.1 + 1)) ∧
              1 ≤ a ∧ a ≤ h.nx ∧ 1 ≤ b ∧ b ≤ h.ny) := by
          constructor
          · rintro ⟨⟨q, hq, hqt⟩, hrr⟩
            rcases List.mem_cons.1 hq with rfl | hq
            · exact absurd hqt hp
            · exact ⟨⟨q, hq, hqt⟩, hrr⟩
          · rintro ⟨⟨q, hq, hqt⟩, hrr⟩
            exact ⟨⟨q, List.mem_cons_of_mem _ hq, hqt⟩, hrr⟩
        rw [if_congr hiff rfl rfl]
    · have hcell : (writePair h p.1 p.2 (f p.1 p.2)).content a b = h.content a b := by
        rw [writePair_content, if_neg (fun hcon => hr hcon.2)]
      rw [hcell, if_neg (fun hcon => hr hcon.2), if_neg (fun hcon => hr hcon.2)]

/-- Characterization of a fold of diagonal variance writes. -/
lemma varFold_spec (w : ℕ → ℕ → ℚ) (L : List (ℕ × ℕ)) (h : TH1) (c : ℕ) :
    (L.foldl (fun acc p => writeVar acc p.1 p.2 (w p.1 p.2)) h).content c =
      if (∃ p ∈ L, p.1 = p.2 ∧ c = p.1 + 1) ∧ 1 ≤ c ∧ c ≤ h.nbins
      then w (c - 1) (c - 1) else h.content c := by
  induction L generalizing h with
  | nil => simp
  | cons p L ih =>
    rw [List.foldl_cons, ih, writeVar_nbins]
    by_cases hr : 1 ≤ c ∧ c ≤ h.nbins
    · by_cases hp : p.1 = p.2 ∧ c = p.1 + 1
      · have hcell : (writeVar h p.1 p.2 (w p.1 p.2)).content c = w (c - 1) (c - 1) := by
          rw [writeVar_content, if_pos ⟨hp, hr⟩]
          obtain ⟨h1, h2⟩ := hp
          subst h2
          rw [Nat.add_sub_cancel, h1]
        have hex : (∃ q ∈ p :: L, q.1 = q.2 ∧ c = q.1 + 1) ∧ 1 ≤ c ∧ c ≤ h.nbins :=
          ⟨⟨p, List.mem_cons_self _ _, hp⟩, hr⟩
        rw [if_pos hex]
        split
        · rfl
        · exact hcell
      · have hcell : (writeVar h p.1 p.2 (w p.1 p.2)).content c = h.content c := by
          rw [writeVar_content, if_neg (fun hcon => hp hcon.1)]
        rw [hcell]
        have hiff : ((∃ q ∈ p :: L, q.1 = q.2 ∧ c = q.1 + 1) ∧ 1 ≤ c ∧ c ≤ h.nbins) ↔
            ((∃ q ∈ L, q.1 = q.2 ∧ c = q.1 + 1) ∧ 1 ≤ c ∧ c ≤ h.nbins) := by
          constructor
          · rintro ⟨⟨q, hq, hqt⟩, hrr⟩
            rcases List.mem_cons.1 hq with rfl | hq
            · exact absurd hqt hp
            · exact ⟨⟨q, hq, hqt⟩, hrr⟩
          · rintro ⟨⟨q, hq, hqt⟩, hrr⟩
            exact ⟨⟨q, List.mem_cons_of_mem _ hq, hqt⟩, hrr⟩
        rw [if_congr hiff rfl rfl]
    · have hcell : (writeVar h p.1 p.2 (w p.1 p.2)).content c = h.content c := by
        rw [writeVar_content, if_neg (fun hcon => hr hcon.2)]
      rw [hcell, if_neg (fun hcon => hr hcon.2), if_neg (fun hcon => hr hcon.2)]

/-- A monadic fold over `Option` aborts if some list element fails
independently of the accumulated state. -/
lemma foldlM_none {σ π : Type} (stepO : σ → π → Option σ) (L : List π) (s : σ)
    (p : π) (hp : p ∈ L) (hfail : ∀ t, stepO t p = none) :
    L.foldlM stepO s = none := by
  induction L generalizing s with
  | nil => cases hp
  | cons q L ih =>
    rw [List.foldlM_cons]
    rcases List.mem_cons.1 hp with rfl | hp'
    · rw [hfail s]
      rfl
    · cases hq : stepO s q with
      | none => rfl
      | some s' => exact ih s' hp'

/-- A monadic fold over `Option` whose every step succeeds equals the pure
fold of the successful steps. -/
lemma foldlM_some {σ π : Type} (stepO : σ → π → Option σ) (step : σ → π → σ)
    (L : List π) (s : σ) (hs : ∀ p ∈ L, ∀ t, stepO t p = some (step t p)) :
    L.foldlM stepO s = some (L.foldl step s) := by
  induction L generalizing s with
  | nil => rfl
  | cons q L ih =>
    rw [List.foldlM_cons, List.foldl_cons, hs q (List.mem_cons_self _ _) s]
    exact ih (step s q) fun p hp t => hs p (List.mem_cons_of_mem _ hp) t

/-- If every accumulated variance is nonzero, no iteration of
`_build_matrices` raises, and the checked loop computes the value-level
fold. -/
lemma build_matrices_eq_run (vA vR : ℕ → ℕ → ℚ) (mA mR : ℕ → ℚ) (N n : ℕ)
    (R : TH2 ℚ) (D : TH1)
    (h : ∀ p ∈ pairList n,
      covDen1 vA mA N p.1 p.2 * covDen2 vA mA N p.1 p.2 ≠ 0 ∧
      covDen1 vR mR N p.1 p.2 * covDen2 vR mR N p.1 p.2 ≠ 0) :
    build_matrices vA vR mA mR N n R D =
      some (build_matrices_run vA vR mA mR N n R D) := by
  refine foldlM_some _ _ _ _ fun p hp t => ?_
  unfold buildStepChecked
  rw [if_neg (h p hp).1, if_neg (h p hp).2]

/-- If some bin `i < n` has vanishing accumulated variance, the checked loop
raises at the diagonal pair `(i, i)` (a state-independent failure) and
`_build_matrices` aborts. -/
lemma build_matrices_abort (vA vR : ℕ → ℕ → ℚ) (mA mR : ℕ → ℚ) (N n : ℕ)
    (R : TH2 ℚ) (D : TH1) (i : ℕ) (hi : i < n)
    (hzero : covDen1 vA mA N i i = 0) :
    build_matrices vA vR mA mR N n R D = none := by
  refine foldlM_none _ _ _ (i, i) ((mem_pairList n i i).2 ⟨hi, le_refl i⟩) fun t => ?_
  unfold buildStepChecked
  rw [if_pos]
  show covDen1 vA mA N i i * covDen2 vA mA N i i = 0
  rw [hzero, zero_mul]

/-- If every toy value of bin `i` equals the mean `m i`, the accumulated
variance of bin `i` vanishes. -/
lemma covDen1_eq_zero_of_const (v : ℕ → ℕ → ℚ) (m : ℕ → ℚ) (N i : ℕ)
    (hconst : ∀ t, t < N → v i t = m i) :
    covDen1 v m N i i = 0 := by
  unfold covDen1
  refine Finset.sum_eq_zero fun t ht => ?_
  rw [hconst t (Finset.mem_range.1 ht)]
  simp

/-- The four 2D matrices of the completed loop, at cell `(i+1, j+1)` with
`i, j < n ≤` the response dimensions. -/
lemma build_run_entries (vA vR : ℕ → ℕ → ℚ) (mA mR : ℕ → ℚ) (N n : ℕ)
    (R : TH2 ℚ) (D : TH1) (i j : ℕ) (hi : i < n) (hj : j < n)
    (hx : n ≤ R.nx) (hy : n ≤ R.ny) :
    (build_matrices_run vA vR mA mR N n R D).cov_abs.content (i + 1) (j + 1) =
      covNum vA mA N i j ∧
    (build_matrices_run vA vR mA mR N n R D).cov_rel.content (i + 1) (j + 1) =
      covNum vR mR N i j ∧
    (build_matrices_run vA vR mA mR N n R D).corr_abs.content (i + 1) (j + 1) =
      corrVal vA mA N i j ∧
    (build_matrices_run vA vR mA mR N n R D).corr_rel.content (i + 1) (j + 1) =
      corrVal vR mR N i j := by
  have hex : ∃ p ∈ pairList n,
      (i + 1 = p.1 + 1 ∧ j + 1 = p.2 + 1) ∨ (i + 1 = p.2 + 1 ∧ j + 1 = p.1 + 1) := by
    rcases le_total j i with hle | hle
    · exact ⟨(i, j), (mem_pairList n i j).2 ⟨hi, hle⟩, Or.inl ⟨rfl, rfl⟩⟩
    · exact ⟨(j, i), (mem_pairList n j i).2 ⟨hj, hle⟩, Or.inr ⟨rfl, rfl⟩⟩
  unfold build_matrices_run
  refine ⟨?_, ?_, ?_, ?_⟩
  · rw [buildFold_proj vA vR mA mR N (fun M => M.cov_abs)
      (fun h p => writePair h p.1 p.2 (covNum vA mA N p.1 p.2)) (fun M p => rfl)]
    rw [pairFold_spec (covNum vA mA N) (covNum_symm vA mA N) _ _ _ _]
    rw [if_pos ⟨hex, by omega, by show i + 1 ≤ R.nx; omega,
      by omega, by show j + 1 ≤ R.ny; omega⟩]
    simp
  · rw [buildFold_proj vA vR mA mR N (fun M => M.cov_rel)
      (fun h p => writePair h p.1 p.2 (covNum vR mR N p.1 p.2)) (fun M p => rfl)]
    rw [pairFold_spec (covNum vR mR N) (covNum_symm vR mR N) _ _ _ _]
    rw [if_pos ⟨hex, by omega, by show i + 1 ≤ R.nx; omega,
      by omega, by show j + 1 ≤ R.ny; omega⟩]
    simp
  · rw [buildFold_proj vA vR mA mR N (fun M => M.corr_abs)
      (fun h p => writePair h p.1 p.2 (corrVal vA mA N p.1 p.2)) (fun M p => rfl)]
    rw [pairFold_spec (corrVal vA mA N) (corrVal_symm vA mA N) _ _ _ _]
    rw [if_pos ⟨hex, by omega, by show i + 1 ≤ R.nx; omega,
      by omega, by show j + 1 ≤ R.ny; omega⟩]
    simp
  · rw [buildFold_proj vA vR mA mR N (fun M => M.corr_rel)
      (fun h p => writePair h p.1 p.2 (corrVal vR mR N p.1 p.2)) (fun M p => rfl)]
    rw [pairFold_spec (corrVal vR mR N) (corrVal_symm vR mR N) _ _ _ _]
    rw [if_pos ⟨hex, by omega, by show i + 1 ≤ R.nx; omega,
      by omega, by show j + 1 ≤ R.ny; omega⟩]
    simp

/-- A monadic fold over `Option` that returns a value must have succeeded at
every step, so the value is the pure fold of the successful steps. -/
lemma foldlM_eq_some_imp {sigma pi : Type} (stepO : sigma -> pi -> Option sigma)
    (step : sigma -> pi -> sigma)
    (hstep : forall t p s', stepO t p = some s' -> s' = step t p)
    (L : List pi) (s M : sigma) (h : L.foldlM stepO s = some M) :
    M = L.foldl step s := by
  induction L generalizing s with
  | nil =>
    rw [List.foldlM_nil] at h
    rw [List.foldl_nil]
    exact (Option.some.inj h).symm
  | cons q L ih =>
    rw [List.foldlM_cons] at h
    cases hq : stepO s q with
    | none =>
      rw [hq] at h
      cases h
    | some s' =>
      rw [hq] at h
      rw [List.foldl_cons, <- hstep s q s' hq]
      exact ih s' h

/-- A successful step of the checked loop computes the value-level step. -/
lemma build_matrices_some_imp (vA vR : ℕ → ℕ → ℚ) (mA mR : ℕ → ℚ) (N n : ℕ)
    (R : TH2 ℚ) (D : TH1) (M : BuildMats)
    (hM : build_matrices vA vR mA mR N n R D = some M) :
    M = build_matrices_run vA vR mA mR N n R D := by
  refine foldlM_eq_some_imp _ _ (fun t p s' hs => ?_) _ _ _ hM
  unfold buildStepChecked at hs
  by_cases h1 : covDen1 vA mA N p.1 p.2 * covDen2 vA mA N p.1 p.2 = 0
  · rw [if_pos h1] at hs; cases hs
  · rw [if_neg h1] at hs
    by_cases h2 : covDen1 vR mR N p.1 p.2 * covDen2 vR mR N p.1 p.2 = 0
    · rw [if_pos h2] at hs; cases hs
    · rw [if_neg h2] at hs
      exact (Option.some.inj hs).symm

/-- **C2**: whenever `_build_matrices` completes on a toy ensemble, each
stored covariance cell `(i+1, j+1)` holds the accumulated `covNum i j`
(computed once for `j ≤ i` and mirrored), and all four matrices —
covariance and correlation, absolute and relative — are symmetric. -/
theorem build_matrices_symmetric (vA vR : ℕ → ℕ → ℚ) (mA mR : ℕ → ℚ)
    (N n : ℕ) (R : TH2 ℚ) (D : TH1) (M : BuildMats)
    (hM : build_matrices vA vR mA mR N n R D = some M)
    (i j : ℕ) (hi : i < n) (hj : j < n) (hx : n ≤ R.nx) (hy : n ≤ R.ny) :
    M.cov_abs.content (i + 1) (j + 1) = covNum vA mA N i j ∧
    M.cov_abs.content (i + 1) (j + 1) = M.cov_abs.content (j + 1) (i + 1) ∧
    M.cov_rel.content (i + 1) (j + 1) = M.cov_rel.content (j + 1) (i + 1) ∧
    M.corr_abs.content (i + 1) (j + 1) = M.corr_abs.content (j + 1) (i + 1) ∧
    M.corr_rel.content (i + 1) (j + 1) = M.corr_rel.content (j + 1) (i + 1) := by
  rw [build_matrices_some_imp vA vR mA mR N n R D M hM]
  obtain ⟨hca, hcr, hka, hkr⟩ := build_run_entries vA vR mA mR N n R D i j hi hj hx hy
  obtain ⟨hca', hcr', hka', hkr'⟩ := build_run_entries vA vR mA mR N n R D j i hj hi hx hy
  refine ⟨hca, ?_, ?_, ?_, ?_⟩
  · rw [hca, hca', covNum_symm]
  · rw [hcr, hcr', covNum_symm]
  · rw [hka, hka', corrVal_symm]
  · rw [hkr, hkr', corrVal_symm]

/-- Witness for C2: one bin, two toys with values 0 and 1 (variance 1/4). -/
theorem build_matrices_symmetric_witness :
    (build_matrices sampleToys sampleToys (toyMean sampleToys 2) (toyMean sampleToys 2)
        2 1 sampleR1 sampleD1 =
      some (build_matrices_run sampleToys sampleToys (toyMean sampleToys 2)
        (toyMean sampleToys 2) 2 1 sampleR1 sampleD1)) ∧
    (0 : ℕ) < 1 ∧ (1 : ℕ) ≤ sampleR1.nx ∧ (1 : ℕ) ≤ sampleR1.ny ∧
    ((build_matrices_run sampleToys sampleToys (toyMean sampleToys 2)
        (toyMean sampleToys 2) 2 1 sampleR1 sampleD1).cov_abs.content 1 1 =
      covNum sampleToys (toyMean sampleToys 2) 2 0 0) := by
  have hden : ∀ p ∈ pairList 1,
      covDen1 sampleToys (toyMean sampleToys 2) 2 p.1 p.2 *
        covDen2 sampleToys (toyMean sampleToys 2) 2 p.1 p.2 ≠ 0 ∧
      covDen1 sampleToys (toyMean sampleToys 2) 2 p.1 p.2 *
        covDen2 sampleToys (toyMean sampleToys 2) 2 p.1 p.2 ≠ 0 := by
    intro p hp
    obtain ⟨i, j⟩ := p
    rw [mem_pairList] at hp
    have hi0 : i = 0 := by omega
    have hj0 : j = 0 := by omega
    subst hi0; subst hj0
    constructor <;>
      norm_num [covDen1, covDen2, sampleToys, toyMean, Finset.sum_range_succ]
  have hM := build_matrices_eq_run sampleToys sampleToys (toyMean sampleToys 2)
    (toyMean sampleToys 2) 2 1 sampleR1 sampleD1 hden
  refine ⟨hM, by norm_num, le_refl _, le_refl _, ?_⟩
  exact (build_matrices_symmetric sampleToys sampleToys (toyMean sampleToys 2)
    (toyMean sampleToys 2) 2 1 sampleR1 sampleD1 _ hM 0 0 (by norm_num) (by norm_num)
    (le_refl _) (le_refl _)).1

/-- The diagonal correlation value is exactly 1 when the accumulated
variance is nonzero: numerator and both denominator factors are the same
sum. -/
lemma corrVal_diag_one (v : ℕ → ℕ → ℚ) (m : ℕ → ℚ) (N i : ℕ)
    (hS : covDen1 v m N i i ≠ 0) : corrVal v m N i i = 1 := by
  unfold corrVal
  rw [covNum_diag v m N i i, covDen2_eq_diag v m N i i]
  have hS0 : (0 : ℚ) ≤ covDen1 v m N i i := covDen1_nonneg v m N i i
  rw [Rat.cast_mul,
    Real.sqrt_mul_self (by exact_mod_cast hS0 : (0 : ℝ) ≤ (covDen1 v m N i i : ℚ))]
  exact div_self (by exact_mod_cast hS)

/-- **C3**: whenever `_build_matrices` completes, every bin `i` whose
accumulated toy variance is nonzero (absolute and relative) has diagonal
correlation entry exactly `1.0` in both correlation matrices: at `i = j`
the covariance numerator and both variance denominators are the same
accumulated sum. -/
theorem corr_diagonal_one (vA vR : ℕ → ℕ → ℚ) (mA mR : ℕ → ℚ)
    (N n : ℕ) (R : TH2 ℚ) (D : TH1) (M : BuildMats)
    (hM : build_matrices vA vR mA mR N n R D = some M)
    (i : ℕ) (hi : i < n) (hx : n ≤ R.nx) (hy : n ≤ R.ny)
    (hA : covDen1 vA mA N i i ≠ 0) (hR : covDen1 vR mR N i i ≠ 0) :
    M.corr_abs.content (i + 1) (i + 1) = 1 ∧
    M.corr_rel.content (i + 1) (i + 1) = 1 := by
  rw [build_matrices_some_imp vA vR mA mR N n R D M hM]
  obtain ⟨_, _, hka, hkr⟩ := build_run_entries vA vR mA mR N n R D i i hi hi hx hy
  exact ⟨by rw [hka, corrVal_diag_one vA mA N i hA],
    by rw [hkr, corrVal_diag_one vR mR N i hR]⟩

/-- Witness for C3: same one-bin two-toy ensemble as for C2. -/
theorem corr_diagonal_one_witness :
    (build_matrices sampleToys sampleToys (toyMean sampleToys 2) (toyMean sampleToys 2)
        2 1 sampleR1 sampleD1 =
      some (build_matrices_run sampleToys sampleToys (toyMean sampleToys 2)
        (toyMean sampleToys 2) 2 1 sampleR1 sampleD1)) ∧
    covDen1 sampleToys (toyMean sampleToys 2) 2 0 0 ≠ 0 ∧
    ((build_matrices_run sampleToys sampleToys (toyMean sampleToys 2)
        (toyMean sampleToys 2) 2 1 sampleR1 sampleD1).corr_abs.content 1 1 = 1 ∧
     (build_matrices_run sampleToys sampleToys (toyMean sampleToys 2)
        (toyMean sampleToys 2) 2 1 sampleR1 sampleD1).corr_rel.content 1 1 = 1) := by
  have hden : ∀ p ∈ pairList 1,
      covDen1 sampleToys (toyMean sampleToys 2) 2 p.1 p.2 *
        covDen2 sampleToys (toyMean sampleToys 2) 2 p.1 p.2 ≠ 0 ∧
      covDen1 sampleToys (toyMean sampleToys 2) 2 p.1 p.2 *
        covDen2 sampleToys (toyMean sampleToys 2) 2 p.1 p.2 ≠ 0 := by
    intro p hp
    obtain ⟨i, j⟩ := p
    rw [mem_pairList] at hp
    have hi0 : i = 0 := by omega
    have hj0 : j = 0 := by omega
    subst hi0; subst hj0
    constructor <;>
      norm_num [covDen1, covDen2, sampleToys, toyMean, Finset.sum_range_succ]
  have hM := build_matrices_eq_run sampleToys sampleToys (toyMean sampleToys 2)
    (toyMean sampleToys 2) 2 1 sampleR1 sampleD1 hden
  have hS : covDen1 sampleToys (toyMean sampleToys 2) 2 0 0 ≠ 0 := by
    norm_num [covDen1, sampleToys, toyMean, Finset.sum_range_succ]
  exact ⟨hM, hS,
    corr_diagonal_one sampleToys sampleToys (toyMean sampleToys 2) (toyMean sampleToys 2)
      2 1 sampleR1 sampleD1 _ hM 0 (by norm_num) (le_refl _) (le_refl _) hS hS⟩

/-- **C10**: if every toy value of some bin `i < n` equals the stored mean
(in particular whenever all `nToys` replicas of bin `i` coincide, since the
mean is their average), the accumulated variance `den1` is zero and the
unguarded division `num / math.sqrt(den1 * den2)` raises
`ZeroDivisionError`, aborting the whole matrix construction: no non-finite
correlation entry is ever stored. -/
theorem build_matrices_zero_variance_raises (vA vR : ℕ → ℕ → ℚ) (mA mR : ℕ → ℚ)
    (N n : ℕ) (R : TH2 ℚ) (D : TH1) (i : ℕ) (hi : i < n)
    (hconst : ∀ t, t < N → vA i t = mA i) :
    build_matrices vA vR mA mR N n R D = none :=
  build_matrices_abort vA vR mA mR N n R D i hi
    (covDen1_eq_zero_of_const vA mA N i hconst)

/-- Witness for C10: a single replica of constant value 3 — the mean equals
the value, the variance vanishes, the build aborts. -/
theorem build_matrices_zero_variance_raises_witness :
    (0 : ℕ) < 1 ∧ (∀ t, t < 1 → constToys 0 t = toyMean constToys 1 0) ∧
    build_matrices constToys constToys (toyMean constToys 1) (toyMean constToys 1)
      1 1 sampleR1 sampleD1 = none := by
  have hconst : ∀ t, t < 1 → constToys 0 t = toyMean constToys 1 0 := by
    intro t ht
    norm_num [constToys, toyMean, Finset.sum_range_succ]
  exact ⟨by norm_num, hconst,
    build_matrices_zero_variance_raises constToys constToys (toyMean constToys 1)
      (toyMean constToys 1) 1 1 sampleR1 sampleD1 0 (by norm_num) hconst⟩

/-! ### `_run_toys_job`: C5 -/

/-- With a degenerate ensemble (some bin's toys all equal to the mean), the
whole toy job aborts with the `ZeroDivisionError` from `_build_matrices`. -/
lemma run_toys_job_abort (st : ToyJobState)
    (toyAbs toyRel : ℕ → ℕ → ℚ) (rmsAbs rmsRel : ℕ → ℚ) (totalXsRMS : ℚ)
    (hpos : 0 < st.nToys) (i : ℕ) (hi : i < st.h_absXs.nbins)
    (hconst : ∀ t, t < st.nToys → toyAbs i t = toyMean toyAbs st.nToys i) :
    run_toys_job st toyAbs toyRel rmsAbs rmsRel totalXsRMS = none := by
  have habort := build_matrices_abort toyAbs toyRel (toyMean toyAbs st.nToys)
    (toyMean toyRel st.nToys) st.nToys st.h_absXs.nbins st.h_response st.h_data i hi
    (covDen1_eq_zero_of_const toyAbs (toyMean toyAbs st.nToys) st.nToys i hconst)
  simp only [run_toys_job]
  rw [if_pos hpos, habort]

/-- **C5** (amended): `_run_toys_job` first re-reads `m_nbins` from
`h_absXs`; with `nToys == 0` nothing else happens — no covariance,
correlation or variance histograms are produced and no other field is
touched, so the point-estimate histograms remain as computed.  With
`nToys > 0` the four covariance/correlation matrices (and the variance
histograms) are produced *provided* every bin's accumulated toy variance
(absolute and relative) is nonzero; a degenerate ensemble instead aborts
with `ZeroDivisionError` (see the counterexample at `nToys = 1`). -/
theorem run_toys_job_spec (st : ToyJobState)
    (toyAbs toyRel : ℕ → ℕ → ℚ) (rmsAbs rmsRel : ℕ → ℚ) (totalXsRMS : ℚ) :
    (st.nToys = 0 →
      run_toys_job st toyAbs toyRel rmsAbs rmsRel totalXsRMS =
        some { st with m_nbins := st.h_absXs.nbins }) ∧
    (0 < st.nToys →
      (∀ b, b < st.h_absXs.nbins →
        covDen1 toyAbs (toyMean toyAbs st.nToys) st.nToys b b ≠ 0) →
      (∀ b, b < st.h_absXs.nbins →
        covDen1 toyRel (toyMean toyRel st.nToys) st.nToys b b ≠ 0) →
      ∃ st', run_toys_job st toyAbs toyRel rmsAbs rmsRel totalXsRMS = some st' ∧
        st'.matrices = some (build_matrices_run toyAbs toyRel
          (toyMean toyAbs st.nToys) (toyMean toyRel st.nToys) st.nToys
          st.h_absXs.nbins st.h_response st.h_data)) := by
  constructor
  · intro h0
    simp only [run_toys_job]
    rw [if_neg (by rw [h0]; exact lt_irrefl 0)]
  · intro hpos hA hR
    have hden : ∀ p ∈ pairList st.h_absXs.nbins,
        covDen1 toyAbs (toyMean toyAbs st.nToys) st.nToys p.1 p.2 *
          covDen2 toyAbs (toyMean toyAbs st.nToys) st.nToys p.1 p.2 ≠ 0 ∧
        covDen1 toyRel (toyMean toyRel st.nToys) st.nToys p.1 p.2 *
          covDen2 toyRel (toyMean toyRel st.nToys) st.nToys p.1 p.2 ≠ 0 := by
      intro p hp
      obtain ⟨i, j⟩ := p
      rw [mem_pairList] at hp
      have hj : j < st.h_absXs.nbins := by omega
      constructor
      · rw [covDen1_eq_diag, covDen2_eq_diag]
        exact mul_ne_zero (hA i hp.1) (hA j hj)
      · rw [covDen1_eq_diag, covDen2_eq_diag]
        exact mul_ne_zero (hR i hp.1) (hR j hj)
    have hrun := build_matrices_eq_run toyAbs toyRel (toyMean toyAbs st.nToys)
      (toyMean toyRel st.nToys) st.nToys st.h_absXs.nbins st.h_response st.h_data hden
    simp only [run_toys_job]
    rw [if_pos hpos, hrun]
    exact ⟨_, rfl, rfl⟩

/-- **C5 counterexample**: with `nToys = 1` (a positive toy count) every
replica equals the mean, `_build_matrices` raises `ZeroDivisionError`, and
the toy job crashes: no covariance or correlation matrix is produced, so
"all four matrices are produced for every `nToys > 0`" fails. -/
theorem run_toys_job_ntoys_one_no_matrices :
    run_toys_job
      ⟨1, 1, sampleD1, sampleD1, sampleR1, sampleD1, fun _ _ => 0, fun _ _ => 0,
        fun _ => 0, fun _ => 0, none, 0⟩
      constToys constToys (fun _ => 0) (fun _ => 0) 0 = none := by
  refine run_toys_job_abort _ constToys constToys _ _ _ (by norm_num) 0 ?_ ?_
  · show 0 < sampleD1.nbins
    norm_num [sampleD1]
  · intro t ht
    show constToys 0 t = toyMean constToys 1 0
    norm_num [constToys, toyMean, Finset.sum_range_succ]

/-- Witness for C5: the skip branch applied at a zero-toy state, and the
production branch applied at a two-toy state with nonzero variances. -/
theorem run_toys_job_spec_witness :
    ((⟨0, 1, sampleD1, sampleD1, sampleR1, sampleD1, fun _ _ => 0, fun _ _ => 0,
        fun _ => 0, fun _ => 0, none, 0⟩ : ToyJobState).nToys = 0 ∧
      run_toys_job
        ⟨0, 1, sampleD1, sampleD1, sampleR1, sampleD1, fun _ _ => 0, fun _ _ => 0,
          fun _ => 0, fun _ => 0, none, 0⟩
        sampleToys sampleToys (fun _ => 0) (fun _ => 0) 0 =
        some { (⟨0, 1, sampleD1, sampleD1, sampleR1, sampleD1, fun _ _ => 0,
            fun _ _ => 0, fun _ => 0, fun _ => 0, none, 0⟩ : ToyJobState) with
          m_nbins := sampleD1.nbins }) ∧
    (0 < (2 : ℕ) ∧
      (∀ b, b < sampleD1.nbins →
        covDen1 sampleToys (toyMean sampleToys 2) 2 b b ≠ 0) ∧
      ∃ st', run_toys_job
          ⟨2, 1, sampleD1, sampleD1, sampleR1, sampleD1, fun _ _ => 0, fun _ _ => 0,
            fun _ => 0, fun _ => 0, none, 0⟩
          sampleToys sampleToys (fun _ => 0) (fun _ => 0) 0 = some st' ∧
        st'.matrices = some (build_matrices_run sampleToys sampleToys
          (toyMean sampleToys 2) (toyMean sampleToys 2) 2
          sampleD1.nbins sampleR1 sampleD1)) := by
  have hvar : ∀ b, b < sampleD1.nbins →
      covDen1 sampleToys (toyMean sampleToys 2) 2 b b ≠ 0 := by
    intro b hb
    have hb0 : b = 0 := by
      have : sampleD1.nbins = 1 := rfl
      omega
    subst hb0
    norm_num [covDen1, sampleToys, toyMean, Finset.sum_range_succ]
  refine ⟨⟨rfl, ?_⟩, ⟨by norm_num, hvar, ?_⟩⟩
  · exact (run_toys_job_spec
      ⟨0, 1, sampleD1, sampleD1, sampleR1, sampleD1, fun _ _ => 0, fun _ _ => 0,
        fun _ => 0, fun _ => 0, none, 0⟩
      sampleToys sampleToys (fun _ => 0) (fun _ => 0) 0).1 rfl
  · exact (run_toys_job_spec
      ⟨2, 1, sampleD1, sampleD1, sampleR1, sampleD1, fun _ _ => 0, fun _ _ => 0,
        fun _ => 0, fun _ => 0, none, 0⟩
      sampleToys sampleToys (fun _ => 0) (fun _ => 0) 0).2 (by norm_num) hvar hvar

/-! ### `Unfolder` construction and dispatch: C6 -/

lemma methodBackend_eq_none (method : String)
    (h1 : method ≠ "Inversion") (h2 : method ≠ "SVD") (h3 : method ≠ "Bayes")
    (h4 : method ≠ "BinByBin") (h5 : method ≠ "SimNeal") :
    methodBackend method = none := by
  unfold methodBackend
  rw [if_neg h1, if_neg h2, if_neg h3, if_neg h4, if_neg h5]

/-- **C6 counterexample**: constructing an `Unfolder` with the unrecognized
method `"Foo"` is *not* a fatal configuration error — `__init__` stores the
string without validation and returns a fully formed object (with
`m_unfolder = None`); the failure only occurs later, when `do_unfold` is
called. -/
theorem unfolder_bad_method_constructs :
    (Unfolder.init "Foo" "kNoError" 0 10).method = "Foo" ∧
    (Unfolder.init "Foo" "kNoError" 0 10).m_unfolder = none ∧
    Unfolder.do_unfold (Unfolder.init "Foo" "kNoError" 0 10) emptyTH1 = none := by
  refine ⟨rfl, rfl, ?_⟩
  unfold Unfolder.do_unfold
  rw [show (Unfolder.init "Foo" "kNoError" 0 10).method = "Foo" from rfl]
  rw [methodBackend_eq_none "Foo" (by decide) (by decide) (by decide) (by decide)
    (by decide)]

/-- **C6** (amended): for every method string outside the five recognized
identifiers, construction succeeds (no validation is performed and
`m_unfolder` stays `None`), and the failure surfaces only at the first
`do_unfold` call, whose dispatch selects no backend so that the follow-up
`self.m_unfolder.SetNToys(...)` raises before any unfolding computation. -/
theorem unfolder_unrecognized_fails_at_do_unfold (method err : String)
    (parameter : ℚ) (nToys : ℕ) (backendResult : TH1)
    (h1 : method ≠ "Inversion") (h2 : method ≠ "SVD") (h3 : method ≠ "Bayes")
    (h4 : method ≠ "BinByBin") (h5 : method ≠ "SimNeal") :
    (Unfolder.init method err parameter nToys).method = method ∧
    (Unfolder.init method err parameter nToys).m_unfolder = none ∧
    Unfolder.do_unfold (Unfolder.init method err parameter nToys) backendResult = none := by
  refine ⟨rfl, rfl, ?_⟩
  unfold Unfolder.do_unfold
  rw [show (Unfolder.init method err parameter nToys).method = method from rfl]
  rw [methodBackend_eq_none method h1 h2 h3 h4 h5]

/-- Witness for the amended C6 at the unrecognized method `"HybSam"` (parsed
by the configuration layer but absent from the dispatch chain). -/
theorem unfolder_unrecognized_fails_witness :
    ("HybSam" : String) ≠ "Inversion" ∧ ("HybSam" : String) ≠ "SVD" ∧
    ("HybSam" : String) ≠ "Bayes" ∧ ("HybSam" : String) ≠ "BinByBin" ∧
    ("HybSam" : String) ≠ "SimNeal" ∧
    ((Unfolder.init "HybSam" "kNoError" (1/2) 1000).method = "HybSam" ∧
      (Unfolder.init "HybSam" "kNoError" (1/2) 1000).m_unfolder = none ∧
      Unfolder.do_unfold (Unfolder.init "HybSam" "kNoError" (1/2) 1000) emptyTH1 = none) :=
  ⟨by decide, by decide, by decide, by decide, by decide,
    unfolder_unrecognized_fails_at_do_unfold "HybSam" "kNoError" (1/2) 1000 emptyTH1
      (by decide) (by decide) (by decide) (by decide) (by decide)⟩

/-! ### `Spectrum._initialize`: C8 -/

/-- **C8 counterexample**: a second call to the initialization step is *not*
a pure no-op: `self.m_output = ROOT.TFile.Open(self.output, "RECREATE")` runs
*before* the already-initialized guard, so the output file handle is replaced
by a freshly opened one (here: handle 5 becomes handle 6). -/
theorem initStep_reopens_output_file :
    (Spectrum.initStep
        ⟨"nominal", "Bayes", 4, "out.root", "toys", 100, true, true, "Poisson",
          5, 5, emptyTH1, emptyTH1, emptyTH2, emptyTH1, emptyTH1, emptyTH1, none⟩).m_output ≠
      (⟨"nominal", "Bayes", 4, "out.root", "toys", 100, true, true, "Poisson",
          5, 5, emptyTH1, emptyTH1, emptyTH2, emptyTH1, emptyTH1, emptyTH1, none⟩ :
        SpectrumState).m_output := by
  simp [Spectrum.initStep]

/-- **C8** (amended): on an already-initialized Spectrum, the initialization
step logs and returns early, leaving every field unchanged — the input
histograms, the derived data-minus-background histogram, the Unfolder
instance, the toy type, the output path (when already set) — *except* the
output file handle `m_output`, which is reassigned to a freshly opened
(recreated) file before the guard is checked. -/
theorem initStep_second_call (st : SpectrumState)
    (hinit : st.is_init = true) (hout : st.output ≠ "") :
    (Spectrum.initStep st).h_data = st.h_data ∧
    (Spectrum.initStep st).h_signal_reco = st.h_signal_reco ∧
    (Spectrum.initStep st).h_response = st.h_response ∧
    (Spectrum.initStep st).h_background = st.h_background ∧
    (Spectrum.initStep st).h_generated = st.h_generated ∧
    (Spectrum.initStep st).h_data_minus_bkg = st.h_data_minus_bkg ∧
    (Spectrum.initStep st).unfolder = st.unfolder ∧
    (Spectrum.initStep st).m_toy_type = st.m_toy_type ∧
    (Spectrum.initStep st).is_init = true ∧
    (Spectrum.initStep st).output = st.output ∧
    (Spectrum.initStep st).nToys = st.nToys ∧
    (Spectrum.initStep st).staterr = st.staterr ∧
    (Spectrum.initStep st).m_output = st.handle_ctr + 1 ∧
    (Spectrum.initStep st).handle_ctr = st.handle_ctr + 1 := by
  have hstep : Spectrum.initStep st =
      { st with m_output := st.handle_ctr + 1, handle_ctr := st.handle_ctr + 1 } := by
    unfold Spectrum.initStep
    rw [if_neg hout]
    dsimp only
    rw [if_pos hinit]
  rw [hstep]
  exact ⟨rfl, rfl, rfl, rfl, rfl, rfl, rfl, rfl, hinit, rfl, rfl, rfl, rfl, rfl⟩

/-- Witness for the amended C8 at a concrete initialized state. -/
theorem initStep_second_call_witness :
    (⟨"nominal", "Bayes", 4, "out.root", "toys", 100, true, true, "Poisson",
        5, 5, emptyTH1, emptyTH1, emptyTH2, emptyTH1, emptyTH1, emptyTH1, none⟩ :
      SpectrumState).is_init = true ∧
    (⟨"nominal", "Bayes", 4, "out.root", "toys", 100, true, true, "Poisson",
        5, 5, emptyTH1, emptyTH1, emptyTH2, emptyTH1, emptyTH1, emptyTH1, none⟩ :
      SpectrumState).output ≠ "" ∧
    ((Spectrum.initStep
        ⟨"nominal", "Bayes", 4, "out.root", "toys", 100, true, true, "Poisson",
          5, 5, emptyTH1, emptyTH1, emptyTH2, emptyTH1, emptyTH1, emptyTH1, none⟩).unfolder =
      (⟨"nominal", "Bayes", 4, "out.root", "toys", 100, true, true, "Poisson",
          5, 5, emptyTH1, emptyTH1, emptyTH2, emptyTH1, emptyTH1, emptyTH1, none⟩ :
        SpectrumState).unfolder ∧
      (Spectrum.initStep
        ⟨"nominal", "Bayes", 4, "out.root", "toys", 100, true, true, "Poisson",
          5, 5, emptyTH1, emptyTH1, emptyTH2, emptyTH1, emptyTH1, emptyTH1, none⟩).m_output =
      (⟨"nominal", "Bayes", 4, "out.root", "toys", 100, true, true, "Poisson",
          5, 5, emptyTH1, emptyTH1, emptyTH2, emptyTH1, emptyTH1, emptyTH1, none⟩ :
        SpectrumState).handle_ctr + 1) := by
  have happ := initStep_second_call
    ⟨"nominal", "Bayes", 4, "out.root", "toys", 100, true, true, "Poisson",
      5, 5, emptyTH1, emptyTH1, emptyTH2, emptyTH1, emptyTH1, emptyTH1, none⟩
    rfl (by decide)
  exact ⟨rfl, by decide, happ.2.2.2.2.2.2.1, happ.2.2.2.2.2.2.2.2.2.2.2.2.1⟩
